import Mathlib

/-!
Verification of the temporal-organizational-graph system (searchgov).

This file gives a shallow embedding, in Lean 4, of the components of the
repository that the checked claims are about:

* `RankParser` (src/services/disambiguation.py): title → seniority score,
  permissible-overlap predicate;
* `DisambiguationService.cluster_employment_records` and its helpers
  (src/services/disambiguation.py);
* `QueryService._get_similar_person_names` (src/services/query.py), the
  three-stage fuzzy name resolver, with the store's Stage-A output and the
  external `thefuzz.token_set_ratio` primitive as parameters;
* `GraphService` colleague/full graph construction and the two
  shortest-path operations (src/services/graph.py), with their caches;
* the facade dispatch `TemporalGraph.find_shortest_path`
  (src/app/temporal_graph.py);
* `QueryService.get_network_snapshot`, `find_employment_by_person_id`,
  `find_all_colleagues` (src/services/query.py);
* the cache behaviour of `EmploymentService.bulk_insert_records`
  (src/services/employment.py) and `OrganisationService` writes.

Dates are embedded as integers (day numbers); Python date comparison and
`timedelta` day comparisons map to integer comparison and subtraction.
External effects (the PostgreSQL store, the `thefuzz` library) are
parameters of the embedded functions, so every definition is executable.
-/

namespace SearchGov

/-! ### Character-list string primitives

Python string operations used by the source (`in`, `str.replace`,
`str.lower`) are embedded over `List Char` so that all evaluations reduce
by `decide`.  `replaceAll` is Python's `str.replace`: leftmost,
non-overlapping, all occurrences. -/

/-- `leadsWith pat s` : `pat` is a prefix of `s` (Python `s.startswith`). -/
def leadsWith : List Char → List Char → Bool
  | [], _ => true
  | _ :: _, [] => false
  | p :: ps, c :: cs => p = c && leadsWith ps cs

/-- Python `pat in s` : `pat` occurs as a contiguous substring of `s`. -/
def containsSub (pat : List Char) : List Char → Bool
  | [] => leadsWith pat []
  | c :: cs => leadsWith pat (c :: cs) || containsSub pat cs

/-- Python `s.replace(pat, repl)` for a non-empty `pat`: replace every
leftmost non-overlapping occurrence.  The fuel argument is structural so
the kernel can evaluate; a match consumes at least one character, so fuel
equal to the length of the text is always enough. -/
def replaceAllFuel (pat repl : List Char) : Nat → List Char → List Char
  | 0, s => s
  | _ + 1, [] => []
  | fuel + 1, c :: cs =>
    if pat ≠ [] && leadsWith pat (c :: cs) then
      repl ++ replaceAllFuel pat repl fuel ((c :: cs).drop pat.length)
    else
      c :: replaceAllFuel pat repl fuel cs

/-- Python `s.replace(pat, repl)` for a non-empty `pat`. -/
def replaceAll (pat repl s : List Char) : List Char :=
  replaceAllFuel pat repl s.length s

/-- Python `s.lower()` restricted to ASCII, which is all the lexicons use. -/
def lowerChars (s : List Char) : List Char := s.map Char.toLower

/-- String to char list, lowercased. -/
def strLower (s : String) : List Char := lowerChars s.toList

/-! ### RankParser (src/services/disambiguation.py, class RankParser) -/

/-- `RankParser.LEVEL_MODIFIERS`, in dict insertion order. -/
def LEVEL_MODIFIERS : List (String × Int) :=
  [("junior", -2), ("jr", -2), ("associate", -1), ("assistant", -1),
   ("senior", 2), ("sr", 2), ("lead", 3), ("principal", 4), ("(covering)", 0)]

/-- `RankParser.ROLE_KEYWORDS`, in dict insertion order. -/
def ROLE_KEYWORDS : List (String × Int) :=
  [("intern", 1), ("officer", 5), ("executive", 5), ("specialist", 6),
   ("analyst", 6), ("engineer", 7), ("consultant", 7), ("scientist", 8),
   ("counsel", 8), ("manager", 10)]

/-- `RankParser.MANAGEMENT_TIERS` after
`sorted(self.MANAGEMENT_TIERS.items(), key=lambda x: len(x[0]), reverse=True)`:
Python's sort is stable and `reverse=True` keeps insertion order among
phrases of equal length, so from the insertion order
head(4), assistant director(18), deputy director(15), director(8),
senior director(15), vice president(14), vp(2), chief(5) the scan order is
the list below. -/
def MANAGEMENT_TIERS_sorted : List (String × Int) :=
  [("assistant director", 18), ("deputy director", 19),
   ("senior director", 22), ("vice president", 25), ("director", 20),
   ("chief", 30), ("head", 15), ("vp", 25)]

/-- `RankParser.PERMISSIBLE_OVERLAP_KEYWORDS`. -/
def PERMISSIBLE_OVERLAP_KEYWORDS : List String :=
  ["board member", "advisor", "adviser", "consultant", "non-executive",
   "fellow", "mentor"]

/-- Whitespace-pad a keyword, as the parser does: `" " + kw + " "`. -/
def padded (kw : String) : List Char := ' ' :: kw.toList ++ [' ']

/-- One step of the tier/role scan: if the padded keyword occurs in the
working text, add its value, erase all its padded occurrences (replacing
each with a single space) and stop the scan. -/
def scanFirst : List (String × Int) → List Char → (Int × List Char × Bool)
  | [], t => (0, t, false)
  | (kw, v) :: rest, t =>
    if containsSub (padded kw) t then
      (v, replaceAll (padded kw) [' '] t, true)
    else
      scanFirst rest t

/-- Modifier scan (`--- Step 3 ---`): every modifier whose padded form
occurs in the remaining text contributes; no erasure, no break. -/
def modifierSum (t : List Char) : Int :=
  LEVEL_MODIFIERS.foldl
    (fun acc (mv : String × Int) =>
      if containsSub (padded mv.1) t then acc + mv.2 else acc) 0

/-- `RankParser.parse_rank`: 0 on empty; otherwise pad and lowercase the
title, scan management tiers first (longest phrase first, one winner,
erased), then role keywords only if no tier matched (first match, erased),
then sum the level modifiers over whatever remains. -/
def parse_rank (title : String) : Int :=
  if title = "" then 0
  else
    let t0 : List Char := ' ' :: strLower title ++ [' ']
    let tier := scanFirst MANAGEMENT_TIERS_sorted t0
    let afterTier := tier.2.1
    let role :=
      if tier.2.2 then (0, afterTier)
      else
        let r := scanFirst ROLE_KEYWORDS afterTier
        (r.1, r.2.1)
    tier.1 + role.1 + modifierSum role.2

/-- `RankParser.is_permissible_overlap`: the lowercased title contains one
of the permissible-overlap keywords (no whitespace padding here). -/
def is_permissible_overlap (title : String) : Bool :=
  if title = "" then false
  else PERMISSIBLE_OVERLAP_KEYWORDS.any
    (fun kw => containsSub kw.toList (strLower title))

/-! ### DisambiguationService (src/services/disambiguation.py)

Raw employment records are string-keyed dicts in the source; the fields the
clustering reads are embedded as a structure.  The organisations
repository, an external store, is a parameter with the two operations
`_enrich_record` calls. -/

/-- The fields of a raw employment record read by the disambiguator. -/
structure RawRecord where
  rank : String
  start_date : Int
  end_date : Int
  url : Option String
  deriving DecidableEq, Repr

/-- An organisations row, as seen by `_enrich_record`. -/
structure OrgRow where
  id : Int
  name : String
  deriving DecidableEq, Repr

/-- The slice of `OrganisationsRepository` used by `_enrich_record`:
`find_by_url` and `get_all_ancestors` (sorted by depth, top level first). -/
structure OrgsRepo where
  find_by_url : String → Option OrgRow
  get_all_ancestors : Int → List OrgRow

/-- An enriched record (`_enrich_record`'s output dict). -/
structure Enriched where
  start_date : Int
  end_date : Int
  rank_score : Int
  parent_ministry : String
  original_record : RawRecord
  deriving DecidableEq, Repr

/-- `DisambiguationService._enrich_record`: resolve the top-level ancestor
unit name through the repository ("UNKNOWN" when the url is absent or
unresolvable; the org's own name when it has no ancestors) and normalize
the rank via the RankParser. -/
def enrich_record (repo : OrgsRepo) (raw : RawRecord) : Enriched :=
  let parent_ministry :=
    match raw.url with
    | none => "UNKNOWN"
    | some u =>
      match repo.find_by_url u with
      | none => "UNKNOWN"
      | some org =>
        match repo.get_all_ancestors org.id with
        | [] => org.name
        | a :: _ => a.name
  { start_date := raw.start_date
    end_date := raw.end_date
    rank_score := parse_rank raw.rank
    parent_ministry := parent_ministry
    original_record := raw }

/-- `DisambiguationService._has_temporal_overlap`: inclusive interval
overlap. -/
def has_temporal_overlap (r1 r2 : Enriched) : Bool :=
  r1.start_date ≤ r2.end_date && r1.end_date ≥ r2.start_date

/-- `DisambiguationService._is_hard_conflict`: overlap and neither
original title permissible-overlap. -/
def is_hard_conflict (r1 r2 : Enriched) : Bool :=
  if has_temporal_overlap r1 r2 then
    !is_permissible_overlap r1.original_record.rank &&
    !is_permissible_overlap r2.original_record.rank
  else false

/-- `DisambiguationService._calculate_cohesion_score` with the
`COHESION_SCORES` table: SAME_PARENT_MINISTRY 5, PERMISSIBLE_OVERLAP_PENALTY
-2, LOGICAL_PROMOTION 3, LATERAL_MOVE 1, ILLOGICAL_DEMOTION -10,
IMMEDIATE_SUCCESSION 4, QUICK_SUCCESSION 2.  Gaps compare the Python
`timedelta` in whole days. -/
def calculate_cohesion_score (new_record cluster_record : Enriched) : Int :=
  let score : Int :=
    if new_record.parent_ministry = cluster_record.parent_ministry then 5 else 0
  if has_temporal_overlap new_record cluster_record then
    score + (-2)
  else
    let rankPart : Int :=
      if new_record.rank_score > cluster_record.rank_score then 3
      else if new_record.rank_score = cluster_record.rank_score then 1
      else if cluster_record.rank_score - new_record.rank_score > 3 then -10
      else 0
    let gap : Int := new_record.start_date - cluster_record.end_date
    let gapPart : Int :=
      if 0 ≤ gap ∧ gap < 30 then 4
      else if 30 ≤ gap ∧ gap < 180 then 2
      else 0
    score + rankPart + gapPart

/-- A record is compatible with a cluster when it hard-conflicts with none
of its members (the inner `for cluster_record in cluster` / `break` loop). -/
def compatible (r : Enriched) (cluster : List Enriched) : Bool :=
  cluster.all (fun cr => !is_hard_conflict r cr)

/-- Sum of cohesion scores of `r` against every member of the cluster. -/
def cohesionSum (r : Enriched) (cluster : List Enriched) : Int :=
  cluster.foldl (fun acc cr => acc + calculate_cohesion_score r cr) 0

/-- The second, vestigial pass of the assignment loop: cohesion re-added
for the members the record strictly succeeds
(`record["start_date"] > cluster_record["end_date"]`). -/
def sequentialSum (r : Enriched) (cluster : List Enriched) : Int :=
  cluster.foldl
    (fun acc cr =>
      if r.start_date > cr.end_date
      then acc + calculate_cohesion_score r cr else acc) 0

/-- The per-record cluster selection of `cluster_employment_records`:
starting from `best_cluster_index = -1`, `max_cluster_score = -999`,
running over the clusters in creation order; incompatible clusters are
skipped; for a compatible cluster the single cohesion sum is compared
against the running maximum, then the sum with the sequential pass re-added
is compared again (the source's two `if current_cluster_score >
max_cluster_score` blocks). -/
def selectGo (r : Enriched) : Nat → Int × Int → List (List Enriched) → Int × Int
  | _, bm, [] => bm
  | i, bm, c :: cs =>
    let bm2 :=
      if compatible r c then
        let s1 := cohesionSum r c
        let bm1 := if s1 > bm.2 then ((i : Int), s1) else bm
        let s2 := s1 + sequentialSum r c
        if s2 > bm1.2 then ((i : Int), s2) else bm1
      else bm
    selectGo r (i + 1) bm2 cs

/-- Entry point of the selection loop. -/
def selectBest (r : Enriched) (clusters : List (List Enriched)) : Int × Int :=
  selectGo r 0 (-1, -999) clusters

/-- Append `r` to the `i`-th cluster. -/
def appendAt (i : Nat) (r : Enriched) : List (List Enriched) → List (List Enriched)
  | [] => []
  | c :: cs =>
    match i with
    | 0 => (c ++ [r]) :: cs
    | j + 1 => c :: appendAt j r cs

/-- One iteration of the assignment loop: place the record in the best
compatible cluster if its score meets `MINIMUM_COHESION_THRESHOLD = 1`,
else open a new cluster. -/
def clusterStep (clusters : List (List Enriched)) (r : Enriched) :
    List (List Enriched) :=
  let bm := selectBest r clusters
  if bm.1 ≠ -1 ∧ bm.2 ≥ 1 then appendAt bm.1.toNat r clusters
  else clusters ++ [[r]]

/-- Stable insertion keeping earlier records with `start_date ≤` the new
record's before it: the result of folding this is Python's stable
`sorted(..., key=lambda x: x["start_date"])`. -/
def insertByStart (r : Enriched) : List Enriched → List Enriched
  | [] => [r]
  | x :: xs =>
    if x.start_date ≤ r.start_date then x :: insertByStart r xs
    else r :: x :: xs

/-- Python's stable sort by `start_date`. -/
def sortByStart (l : List Enriched) : List Enriched :=
  l.foldl (fun acc r => insertByStart r acc) []

/-- `DisambiguationService.cluster_employment_records`: enrich, sort
chronologically, run the assignment loop, then strip the enrichment. -/
def cluster_employment_records (repo : OrgsRepo) (raw_records : List RawRecord) :
    List (List RawRecord) :=
  let enriched := raw_records.map (enrich_record repo)
  let sorted := sortByStart enriched
  let clusters := sorted.foldl clusterStep []
  clusters.map (fun c => c.map (fun e => e.original_record))

/-- Modelled from the spec (§4.2 assignment algorithm, and design note (a):
"Behaviour to reproduce should be the single-pass version"): identical to
`cluster_employment_records` except that each compatible cluster is scored
by the single cohesion sum only, with no sequential second pass. -/
def selectGoSpec (r : Enriched) :
    Nat → Int × Int → List (List Enriched) → Int × Int
  | _, bm, [] => bm
  | i, bm, c :: cs =>
    let bm2 :=
      if compatible r c then
        let s1 := cohesionSum r c
        if s1 > bm.2 then ((i : Int), s1) else bm
      else bm
    selectGoSpec r (i + 1) bm2 cs

/-- Modelled from the spec: single-pass selection. -/
def selectBestSpec (r : Enriched) (clusters : List (List Enriched)) : Int × Int :=
  selectGoSpec r 0 (-1, -999) clusters

/-- Modelled from the spec: the single-pass assignment loop of §4.2. -/
def clusterStepSpec (clusters : List (List Enriched)) (r : Enriched) :
    List (List Enriched) :=
  let bm := selectBestSpec r clusters
  if bm.1 ≠ -1 ∧ bm.2 ≥ 1 then appendAt bm.1.toNat r clusters
  else clusters ++ [[r]]

/-- Modelled from the spec: `cluster_employment_records` as §4.2 describes
it (single-pass scoring). -/
def cluster_employment_records_spec (repo : OrgsRepo)
    (raw_records : List RawRecord) : List (List RawRecord) :=
  let enriched := raw_records.map (enrich_record repo)
  let sorted := sortByStart enriched
  let clusters := sorted.foldl clusterStepSpec []
  clusters.map (fun c => c.map (fun e => e.original_record))

/-- Hard conflict stated directly on raw records (the §4.2 conflict
taxonomy): inclusive overlap and neither title permissible. -/
def raw_hard_conflict (a b : RawRecord) : Bool :=
  (a.start_date ≤ b.end_date && a.end_date ≥ b.start_date) &&
  (!is_permissible_overlap a.rank && !is_permissible_overlap b.rank)

/-- The two date fields an enriched record exposes agree with its original
record (true of every record `_enrich_record` produces). -/
def datesMatch (e : Enriched) : Prop :=
  e.start_date = e.original_record.start_date ∧
  e.end_date = e.original_record.end_date

/-- The invariant of the assignment loop: every cluster consists of
enrichment outputs and contains no hard-conflicting pair. -/
def GoodCluster (c : List Enriched) : Prop :=
  (∀ e ∈ c, datesMatch e) ∧
  c.Pairwise (fun a b => is_hard_conflict a b = false)

/-! ### NameResolver (src/services/query.py, `_get_similar_person_names`)

Stage A (the PostgreSQL trigram / ILIKE prefilter) is an external store
round-trip; its output — the ordered candidate list — is a parameter.
`thefuzz.fuzz.token_set_ratio` is an external library primitive; it is a
parameter `tsr` of every definition (the source calls it on lowercased
strings and compares against integer thresholds `int(threshold * 100)`,
which are the integer parameters here; `int(x*100)` is monotone in `x`,
so monotonicity in the integer thresholds is monotonicity in β and γ). -/

/-- Python `s.lower()` on a `String`. -/
def pyLower (s : String) : String := ⟨lowerChars s.data⟩

/-- Lexicographic ≤ on pairs of integers (Python tuple comparison). -/
def pairLe (a b : Int × Int) : Bool :=
  a.1 < b.1 || (a.1 = b.1 && a.2 ≤ b.2)

/-- Stable descending insertion: the new element goes after every element
whose key is ≥ its own, so folding this over the input is Python's stable
`list.sort(key=..., reverse=True)`. -/
def insertDescBy {α : Type} (k : α → Int × Int) (x : α) :
    List α → List α
  | [] => [x]
  | y :: ys =>
    if pairLe (k x) (k y) then y :: insertDescBy k x ys else x :: y :: ys

/-- Python's stable descending sort by key. -/
def sortDescBy {α : Type} (k : α → Int × Int) (l : List α) : List α :=
  l.foldl (fun acc x => insertDescBy k x acc) []

/-- The primary token-set-ratio refinement (Stage B): keep candidates with
`tsr(query.lower(), cand.lower()) >= fw_primary_threshold_int`, paired with
their score, in candidate order. -/
def stageBFilter (tsr : String → String → Int) (name_query : String)
    (fw_primary_threshold_int : Int) (pg_candidates : List String) :
    List (String × Int) :=
  pg_candidates.filterMap (fun cand =>
    let s := tsr (pyLower name_query) (pyLower cand)
    if s ≥ fw_primary_threshold_int then some (cand, s) else none)

/-- Number of strong pairwise links of the candidate at index `i` with name
`name_i`: other indices `j` whose pairwise ratio meets the threshold. -/
def strongLinkCount (tsr : String → String → Int)
    (fw_pairwise_threshold_int : Int) (primary : List (String × Int))
    (i : Nat) (name_i : String) : Nat :=
  primary.enum.countP (fun jc =>
    jc.1 ≠ i && tsr (pyLower name_i) (pyLower jc.2.1) ≥ fw_pairwise_threshold_int)

/-- The secondary pairwise filter (Stage C) on the sorted Stage-B
survivors: keep `(name, primary_score, links)` for candidates with at
least `min_strong_pairwise_links` strong links. -/
def pairwiseFilter (tsr : String → String → Int)
    (fw_pairwise_threshold_int : Int) (min_strong_pairwise_links : Nat)
    (primary : List (String × Int)) : List (String × Int × Nat) :=
  primary.enum.filterMap (fun ic =>
    let links := strongLinkCount tsr fw_pairwise_threshold_int primary ic.1 ic.2.1
    if links ≥ min_strong_pairwise_links then some (ic.2.1, ic.2.2, links)
    else none)

/-- `_get_similar_person_names` after Stage A, before the final
`[:limit_results]` truncation: Stage-B filter and stable descending sort by
score; the pairwise stage is skipped when disabled, when ≤ 1 candidate
survives B, or when the B-survivor count is ≤ `min_strong_pairwise_links`;
otherwise candidates failing the strong-link requirement are dropped
([] when none survive) and the survivors are stably sorted by
`(num_strong_links, primary_score)` descending. -/
def primarySorted (tsr : String → String → Int) (name_query : String)
    (fw_primary_threshold_int : Int) (pg_candidates : List String) :
    List (String × Int) :=
  sortDescBy (fun p => (p.2, p.2))
    (stageBFilter tsr name_query fw_primary_threshold_int pg_candidates)

/-- See the section comment: the resolver pipeline before the final
truncation, with `primarySorted` the sorted Stage-B survivor list and
`pairwiseFilter` the Stage-C strong-link filter. -/
def finalNamesPreLimit (tsr : String → String → Int) (name_query : String)
    (pg_candidates : List String) (fw_primary_threshold_int : Int)
    (enable_pairwise_filter : Bool) (fw_pairwise_threshold_int : Int)
    (min_strong_pairwise_links : Nat) : List String :=
  if ¬ enable_pairwise_filter ∨
      (primarySorted tsr name_query fw_primary_threshold_int
        pg_candidates).length ≤ 1 then
    (primarySorted tsr name_query fw_primary_threshold_int
      pg_candidates).map Prod.fst
  else if (primarySorted tsr name_query fw_primary_threshold_int
      pg_candidates).length ≤ min_strong_pairwise_links then
    (primarySorted tsr name_query fw_primary_threshold_int
      pg_candidates).map Prod.fst
  else if pairwiseFilter tsr fw_pairwise_threshold_int
      min_strong_pairwise_links
      (primarySorted tsr name_query fw_primary_threshold_int
        pg_candidates) = [] then []
  else
    (sortDescBy (fun t => ((t.2.2 : Int), t.2.1))
      (pairwiseFilter tsr fw_pairwise_threshold_int
        min_strong_pairwise_links
        (primarySorted tsr name_query fw_primary_threshold_int
          pg_candidates))).map (fun t => t.1)

/-- `QueryService._get_similar_person_names` (pure pipeline after the
store prefilter): the pre-limit ranking truncated to `limit_results`.
The source's early `return []` on an empty candidate pool or an empty
Stage-B survivor set coincides with this composition (an empty list
filters, sorts and truncates to an empty list). -/
def get_similar_person_names (tsr : String → String → Int)
    (name_query : String) (pg_candidates : List String)
    (fw_primary_threshold_int : Int) (limit_results : Nat)
    (enable_pairwise_filter : Bool) (fw_pairwise_threshold_int : Int)
    (min_strong_pairwise_links : Nat) : List String :=
  (finalNamesPreLimit tsr name_query pg_candidates fw_primary_threshold_int
    enable_pairwise_filter fw_pairwise_threshold_int
    min_strong_pairwise_links).take limit_results

/-- A concrete token-set-ratio table: names are kept verbatim when equal
(`token_set_ratio(x, x) = 100`) and the three names "ab", "cd", "ef" share
no characters pairwise, so every cross ratio is 0; this function agrees
with `thefuzz.fuzz.token_set_ratio` on every pair it is evaluated at in
the theorems below. -/
def tsrCex (a b : String) : Int := if a = b then 100 else 0

/-! ### Store rows and QueryService plumbing (src/services/query.py) -/

/-- A `people` row as read by the snapshot query. -/
structure PersonRow where
  id : Int
  name : String
  tel : Option String
  email : Option String
  deriving DecidableEq, Repr

/-- An `organizations` row as read by the snapshot query. -/
structure OrgTableRow where
  id : Int
  name : String
  parent_org_id : Option Int
  deriving DecidableEq, Repr

/-- An `employment` row. -/
structure EmploymentRow where
  id : Int
  person_id : Int
  org_id : Int
  rank : String
  start_date : Int
  end_date : Int
  deriving DecidableEq, Repr

/-- The relational store's three tables. -/
structure Store where
  people : List PersonRow
  organizations : List OrgTableRow
  employment : List EmploymentRow
  deriving Repr

/-- A row of the snapshot result set (the SELECT list of
`get_network_snapshot`). -/
structure SnapshotRow where
  person_id : Int
  person_name : String
  org_id : Int
  org_name : String
  rank : String
  start_date : Int
  end_date : Int
  tel : Option String
  email : Option String
  deriving DecidableEq, Repr

/-- Ascending stable insertion (SQL ORDER BY is a stable ascending sort
for our purposes). -/
def insertAscBy {α : Type} (le : α → α → Bool) (x : α) :
    List α → List α
  | [] => [x]
  | y :: ys => if le y x then y :: insertAscBy le x ys else x :: y :: ys

/-- Stable ascending sort by a boolean ≤. -/
def sortAscBy {α : Type} (le : α → α → Bool) (l : List α) : List α :=
  l.foldl (fun acc x => insertAscBy le x acc) []

/-- `ORDER BY o.name, p.name` on snapshot rows. -/
def snapshotLe (a b : SnapshotRow) : Bool :=
  a.org_name < b.org_name ||
  (a.org_name = b.org_name && a.person_name ≤ b.person_name)

/-- The inner joins `employment JOIN people ON person_id JOIN organizations
ON org_id` for one employment row, under the data model's unique-id
invariant (each id matches at most one row, so the first match is the
match). -/
def joinRow (st : Store) (e : EmploymentRow) : Option SnapshotRow :=
  (st.people.find? (fun p => p.id = e.person_id)).bind fun p =>
  (st.organizations.find? (fun o => o.id = e.org_id)).map fun o =>
    ⟨p.id, p.name, o.id, o.name, e.rank, e.start_date, e.end_date,
      p.tel, p.email⟩

/-- `QueryService.get_network_snapshot`: the employment rows whose
interval contains the target date (`%(target_date)s BETWEEN e.start_date
AND e.end_date`), joined with their person and organization rows, ordered
by organization then person name. -/
def get_network_snapshot (st : Store) (target_date : Int) :
    List SnapshotRow :=
  sortAscBy snapshotLe
    ((st.employment.filter
        (fun e => e.start_date ≤ target_date ∧ target_date ≤ e.end_date)
      ).filterMap (joinRow st))

/-- Python exceptions surfaced by the embedded fragments. -/
inductive PyError
  | typeError
  deriving DecidableEq, Repr

/-- `QueryService.find_employment_by_person_id`: `res` is what
`employment_repo.find_by_person_id(person_id, limit)` returned.  When
`get_recent_employment` is set and `res` is truthy, the source evaluates
`res.sort(key=lambda x: x["start_date"], reverse=True)[0]`; `list.sort`
returns `None`, so the subscript raises `TypeError` and the function never
returns.  Otherwise `res` is returned unchanged. -/
def find_employment_by_person_id (res : List EmploymentRow)
    (get_recent_employment : Bool) : Except PyError (List EmploymentRow) :=
  if get_recent_employment ∧ res ≠ [] then .error .typeError
  else .ok res

/-- `QueryService._deduplicate_list_of_dicts`: keep the first occurrence
of each row. -/
def pyDedupAux {α : Type} [DecidableEq α] (seen : List α) :
    List α → List α
  | [] => []
  | x :: xs =>
    if x ∈ seen then pyDedupAux seen xs
    else x :: pyDedupAux (x :: seen) xs

/-- Deduplication entry point. -/
def pyDedup {α : Type} [DecidableEq α] (l : List α) : List α :=
  pyDedupAux [] l

/-- Parameters of `_get_similar_person_names` without default values:
`name_query`, `pg_similarity_threshold`, `fw_primary_similarity_threshold`
and `limit_results`. -/
def getSimilarRequiredPositional : Nat := 4

/-- The fuzzy branch of `find_all_colleagues` calls
`self._get_similar_person_names(person_name, min_similarity_threshold,
max_similar_names)` — three positional arguments. -/
def findAllColleaguesFuzzyCallArgs : Nat := 3

/-- `QueryService.find_all_colleagues` over an abstract store function
`find_all_colleagues(name)` returning rows of type `α`.  In the fuzzy
branch Python binds the call's three positional arguments against the
callee's four required parameters and raises `TypeError` (missing
`limit_results`) before any store work; the non-fuzzy branch queries the
store for the single name and deduplicates. -/
def find_all_colleagues {α : Type} [DecidableEq α]
    (storeColleagues : String → List α) (person_name : String)
    (is_fuzzy : Bool) : Except PyError (List α) :=
  if is_fuzzy then
    if findAllColleaguesFuzzyCallArgs < getSimilarRequiredPositional then
      .error .typeError
    else .ok []
  else .ok (pyDedup (storeColleagues person_name))

/-- `TemporalGraph.find_colleagues` (src/app/temporal_graph.py) with no
`target_date`: it forwards to `find_all_colleagues(person_name, is_fuzzy)`
with the facade's default `is_fuzzy = True`. -/
def facade_find_colleagues_no_date {α : Type} [DecidableEq α]
    (storeColleagues : String → List α) (person_name : String) :
    Except PyError (List α) :=
  find_all_colleagues storeColleagues person_name true

/-! ### GraphService (src/services/graph.py)

Graph nodes in the source are prefixed strings `"person_<id>"` /
`"org_<id>"`; they are embedded as the tagged type `NodeId` (the
correspondence is a bijection, and `get_int_id`, which parses the numeric
suffix back out, is the projection `NodeId.intId`).  `nx.shortest_path`
on an unweighted graph returns one shortest path found by breadth-first
search; the embedding's BFS is deterministic in adjacency order, and the
properties proved below do not depend on which among equally short paths
is returned. -/

/-- A graph node: `"person_<id>"` or `"org_<id>"`. -/
inductive NodeId
  | person (id : Int)
  | org (id : Int)
  deriving DecidableEq, Repr

/-- `get_int_id`: parse the integer suffix of a prefixed node id. -/
def NodeId.intId : NodeId → Int
  | .person i => i
  | .org i => i

/-- A row of `QueryService.get_all_employment_data` (everything the graph
builders read). -/
structure EmpDataRow where
  person_id : Int
  person_name : String
  org_id : Int
  org_name : String
  rank : String
  start_date : Int
  end_date : Int
  deriving DecidableEq, Repr

/-- `ORDER BY o.name, p.name` on employment data rows. -/
def empDataLe (a b : EmpDataRow) : Bool :=
  a.org_name < b.org_name ||
  (a.org_name = b.org_name && a.person_name ≤ b.person_name)

/-- The join of `get_all_employment_data` for one employment row. -/
def joinData (st : Store) (e : EmploymentRow) : Option EmpDataRow :=
  (st.people.find? (fun p => p.id = e.person_id)).bind fun p =>
  (st.organizations.find? (fun o => o.id = e.org_id)).map fun o =>
    ⟨p.id, p.name, o.id, o.name, e.rank, e.start_date, e.end_date⟩

/-- `QueryService.get_all_employment_data`: the full history join, ordered
by organization then person name. -/
def get_all_employment_data (st : Store) : List EmpDataRow :=
  sortAscBy empDataLe (st.employment.filterMap (joinData st))

/-- The colleague graph: person nodes `(person_id, person_name)` and
undirected edges annotated with the list of org ids where the two people
overlapped (the edge's `orgs` attribute, in append order). -/
structure ColleagueGraph where
  nodes : List (Int × String)
  edges : List ((Int × Int) × List Int)
  deriving DecidableEq, Repr

/-- Does an edge record connect `a` and `b` (edges are undirected)? -/
def edgeConnects (k : Int × Int) (a b : Int) : Bool :=
  (k.1 = a && k.2 = b) || (k.1 = b && k.2 = a)

/-- `colleague_G.edges[a, b]["orgs"]`. -/
def findEdgeOrgs (edges : List ((Int × Int) × List Int)) (a b : Int) :
    Option (List Int) :=
  (edges.find? (fun e => edgeConnects e.1 a b)).map (fun e => e.2)

/-- `G_colleagues.add_edge` / append to an existing edge's `orgs` list. -/
def addEdgeOrg (edges : List ((Int × Int) × List Int)) (a b : Int)
    (org : Int) : List ((Int × Int) × List Int) :=
  if (edges.find? (fun e => edgeConnects e.1 a b)).isSome then
    edges.map (fun e =>
      if edgeConnects e.1 a b then (e.1, e.2 ++ [org]) else e)
  else edges ++ [((a, b), [org])]

/-- `defaultdict(list)` grouping by `org_id`: keys in first-appearance
order, each bucket in row order. -/
def groupByOrg (rows : List EmpDataRow) : List (Int × List EmpDataRow) :=
  rows.foldl
    (fun acc r =>
      if (acc.find? (fun g => g.1 = r.org_id)).isSome then
        acc.map (fun g => if g.1 = r.org_id then (g.1, g.2 ++ [r]) else g)
      else acc ++ [(r.org_id, [r])])
    []

/-- `itertools.combinations(l, 2)` in order. -/
def pairsOf {α : Type} : List α → List (α × α)
  | [] => []
  | x :: xs => xs.map (fun y => (x, y)) ++ pairsOf xs

/-- `GraphService._build_colleague_graph` minus the caching: group
employments by organization, and for every pair with inclusive interval
overlap insert (or extend) the undirected edge, recording the org. -/
def mkColleagueGraph (all_data : List EmpDataRow) : ColleagueGraph :=
  let nodes := pyDedup (all_data.map (fun r => (r.person_id, r.person_name)))
  let edges := (groupByOrg all_data).foldl
    (fun edges grp =>
      (pairsOf grp.2).foldl
        (fun edges pr =>
          if pr.1.start_date ≤ pr.2.end_date ∧
              pr.2.start_date ≤ pr.1.end_date then
            addEdgeOrg edges pr.1.person_id pr.2.person_id grp.1
          else edges)
        edges)
    []
  ⟨nodes, edges⟩

/-- The full-history graph `G_full`: person and org nodes with names,
`employed_at` edges (person → org, with rank and interval) and
`subunit_of` edges (org → parent). -/
structure FullGraph where
  personNodes : List (Int × String)
  orgNodes : List (Int × String)
  empEdges : List (Int × Int × String × Int × Int)
  hierEdges : List (Int × Int)
  deriving DecidableEq, Repr

/-- `GraphService.build_full_history_graph` minus the caching. -/
def mkFullGraph (all_data : List EmpDataRow)
    (org_hierarchy : List OrgTableRow) : FullGraph :=
  { personNodes :=
      pyDedup (all_data.map (fun r => (r.person_id, r.person_name)))
    orgNodes := org_hierarchy.map (fun o => (o.id, o.name))
    empEdges := all_data.map
      (fun r => (r.person_id, r.org_id, r.rank, r.start_date, r.end_date))
    hierEdges := org_hierarchy.filterMap
      (fun o => o.parent_org_id.map (fun p => (o.id, p))) }

/-- Adjacency of the colleague graph. -/
def colleagueAdj (g : ColleagueGraph) (a : Int) : List Int :=
  g.edges.filterMap (fun e =>
    if e.1.1 = a then some e.1.2
    else if e.1.2 = a then some e.1.1
    else none)

/-- Undirected adjacency of `G_full` (`G.to_undirected()`). -/
def fullAdj (g : FullGraph) : NodeId → List NodeId
  | .person i =>
    g.empEdges.filterMap (fun e =>
      if e.1 = i then some (NodeId.org e.2.1) else none)
  | .org j =>
    g.empEdges.filterMap (fun e =>
        if e.2.1 = j then some (NodeId.person e.1) else none) ++
    g.hierEdges.filterMap (fun e =>
        if e.1 = j then some (NodeId.org e.2)
        else if e.2 = j then some (NodeId.org e.1)
        else none)

/-- Breadth-first search for one shortest path.  The queue holds paths in
reverse (head = frontier node); nodes are marked visited when enqueued, so
the number of dequeues is bounded by the number of distinct nodes and the
fuel `#nodes + 1` never runs out on the graphs built above. -/
def bfsSearch {α : Type} [DecidableEq α] (adj : α → List α) (target : α) :
    Nat → List (List α) → List α → Option (List α)
  | 0, _, _ => none
  | _ + 1, [], _ => none
  | fuel + 1, p :: queue, visited =>
    match p with
    | [] => bfsSearch adj target fuel queue visited
    | cur :: _ =>
      if cur = target then some p.reverse
      else
        let nbrs := (adj cur).filter (fun n => !visited.contains n)
        bfsSearch adj target fuel
          (queue ++ nbrs.map (fun n => n :: p)) (visited ++ nbrs)

/-- `nx.shortest_path(G, s, t)` (unweighted): a shortest path from `s` to
`t`, `none` on `NetworkXNoPath`. -/
def nxShortestPath {α : Type} [DecidableEq α] (adj : α → List α)
    (nodeCount : Nat) (s t : α) : Option (List α) :=
  bfsSearch adj t (nodeCount + 1) [[s]] [s]

/-- The all-pairs loop shared by both path queries: keep the overall
shortest; a `source == target` pair contributes the one-node path only
when nothing was found yet. -/
def findShortestAmongPairs {α : Type} [DecidableEq α] (adj : α → List α)
    (nodeCount : Nat) (sources targets : List α) : Option (List α) :=
  sources.foldl
    (fun best s =>
      targets.foldl
        (fun best t =>
          if s = t then
            match best with
            | none => some [s]
            | some b => some b
          else
            match nxShortestPath adj nodeCount s t with
            | none => best
            | some p =>
              match best with
              | none => some p
              | some b => if p.length < b.length then some p else some b)
        best)
    none

/-- An element of a returned path: a prefixed node id (the `ids_only`
form) or a node's display name. -/
inductive PathElem
  | nodeRef (n : NodeId)
  | name (s : String)
  deriving DecidableEq, Repr

/-- The structured path items of `find_shortest_temporal_path` Step 4. -/
inductive StructuredItem
  | personItem (id : Int)
  | orgItem (id : Int)
  deriving DecidableEq, Repr

/-- `edge_data["orgs"][0]` for two adjacent path nodes (only evaluated on
consecutive path nodes, whose edge exists with a non-empty org list by
construction).  The source also retrieves the full-history graph before
searching, but reads it — for org display names — only inside the dead
name-producing branches of Step 5, so it is not rebuilt here. -/
def connectingOrg (g : ColleagueGraph) (a b : Int) : Int :=
  ((findEdgeOrgs g.edges a b).getD []).headD 0

/-- Weave the connecting org between consecutive people (Step 4). -/
def weaveAux (g : ColleagueGraph) : Int → List Int → List StructuredItem
  | _, [] => []
  | prev, n :: rest =>
    .orgItem (connectingOrg g prev n) :: .personItem n :: weaveAux g n rest

/-- The full structured path: first person, then org/person pairs. -/
def weave (g : ColleagueGraph) : List Int → List StructuredItem
  | [] => []
  | p :: rest => .personItem p :: weaveAux g p rest

/-- `GraphService.find_shortest_temporal_path`: search `G_colleague`
between the two id sets; `some []` when no endpoint is in the graph or no
path exists.  Step 5's output formatting is guarded by `if ids_only:` in
the source — when `ids_only` is false, no return statement executes and
the function returns Python `None`, embedded as `Option.none`; the
name-producing branches inside that block are dead code. -/
def find_shortest_temporal_path (all_data : List EmpDataRow)
    (person1_ids person2_ids : List Int) (ids_only : Bool) :
    Option (List PathElem) :=
  let colG := mkColleagueGraph all_data
  let validS := person1_ids.filter
    (fun i => (colG.nodes.find? (fun n => n.1 = i)).isSome)
  let validT := person2_ids.filter
    (fun i => (colG.nodes.find? (fun n => n.1 = i)).isSome)
  if validS = [] ∨ validT = [] then some []
  else
    match findShortestAmongPairs (colleagueAdj colG) colG.nodes.length
        validS validT with
    | none => some []
    | some [] => some []
    | some path =>
      let structured := weave colG path
      if ids_only then
        some (structured.map (fun it =>
          match it with
          | .personItem i => PathElem.nodeRef (NodeId.person i)
          | .orgItem i => PathElem.nodeRef (NodeId.org i)))
      else none

/-- Display name of a `G_full` node (node attribute lookup). -/
def fullNodeName (g : FullGraph) : NodeId → String
  | .person i => ((g.personNodes.find? (fun n => n.1 = i)).map Prod.snd).getD ""
  | .org j => ((g.orgNodes.find? (fun n => n.1 = j)).map Prod.snd).getD ""

/-- `GraphService.find_shortest_path` (time-agnostic, on `G_full`): BFS
between the id sets over the undirected view; `[]` when no endpoint is
present or no path exists; `people_only` drops org nodes from the found
path; `ids_only` returns prefixed ids, otherwise node names. -/
def find_shortest_path_full (all_data : List EmpDataRow)
    (org_hierarchy : List OrgTableRow) (person1_ids person2_ids : List Int)
    (people_only ids_only : Bool) : List PathElem :=
  let fullG := mkFullGraph all_data org_hierarchy
  let nodeCount := fullG.personNodes.length + fullG.orgNodes.length
  let validS := (person1_ids.map NodeId.person).filter
    (fun n => match n with
      | .person i => (fullG.personNodes.find? (fun p => p.1 = i)).isSome
      | .org j => (fullG.orgNodes.find? (fun o => o.1 = j)).isSome)
  let validT := (person2_ids.map NodeId.person).filter
    (fun n => match n with
      | .person i => (fullG.personNodes.find? (fun p => p.1 = i)).isSome
      | .org j => (fullG.orgNodes.find? (fun o => o.1 = j)).isSome)
  if validS = [] ∨ validT = [] then []
  else
    match findShortestAmongPairs (fullAdj fullG) nodeCount validS validT with
    | none => []
    | some path =>
      let kept := if people_only then
          path.filter (fun n => match n with | .person _ => true | .org _ => false)
        else path
      if ids_only then kept.map PathElem.nodeRef
      else kept.map (fun n => PathElem.name (fullNodeName fullG n))

/-! ### Facade dispatch (src/app/temporal_graph.py, `find_shortest_path`)
and the graph caches (C6, C7)

`TemporalGraph.find_shortest_path` first dispatches on `is_temporal`
(passing `include_metadata` in the third positional slot: `ids_only` of
the temporal search, `people_only` of the time-agnostic one); afterwards,
unless the first result is truthy and `include_metadata` is set, it falls
through to a second, always time-agnostic call with `people_only`.  The
trace component below records, in order, which graph each executed search
ran on.  The metadata-enrichment branch wraps the first result's items;
its per-item repository lookups are irrelevant to the dispatch and are
not modelled further. -/

/-- Which graph a path search executed on. -/
inductive SearchKind
  | colleague
  | full
  deriving DecidableEq, Repr

/-- The facade's result: the metadata-enriched first result, or the
fallthrough's plain result. -/
inductive FacadeResult
  | metadata (items : List PathElem)
  | plain (items : List PathElem)
  deriving DecidableEq, Repr

/-- The facade's first dispatch: the temporal search on `G_colleague` when
`is_temporal`, else the time-agnostic search on `G_full`; in both calls
`include_metadata` fills the third positional parameter (`ids_only`
respectively `people_only`). -/
def facade_first_result (all_data : List EmpDataRow)
    (org_hierarchy : List OrgTableRow) (person1 person2 : List Int)
    (include_metadata is_temporal : Bool) : Option (List PathElem) :=
  if is_temporal then
    find_shortest_temporal_path all_data person1 person2 include_metadata
  else
    some (find_shortest_path_full all_data org_hierarchy person1 person2
      include_metadata false)

/-- Python truthiness of `res` (a `None` or a list). -/
def facadeTruthy : Option (List PathElem) → Bool
  | none => false
  | some l => l ≠ []

/-- `TemporalGraph.find_shortest_path`, paired with the trace of executed
searches in execution order. -/
def facade_find_shortest_path (all_data : List EmpDataRow)
    (org_hierarchy : List OrgTableRow) (person1 person2 : List Int)
    (people_only include_metadata is_temporal : Bool) :
    FacadeResult × List SearchKind :=
  if facadeTruthy (facade_first_result all_data org_hierarchy person1
      person2 include_metadata is_temporal) && include_metadata then
    (FacadeResult.metadata
      ((facade_first_result all_data org_hierarchy person1 person2
        include_metadata is_temporal).getD []),
     [if is_temporal then SearchKind.colleague else SearchKind.full])
  else
    (FacadeResult.plain
      (find_shortest_path_full all_data org_hierarchy person1 person2
        people_only false),
     [if is_temporal then SearchKind.colleague else SearchKind.full,
      SearchKind.full])

/-- The mutable cache fields of `GraphService.__init__` relevant to the
graph queries (`_full_graph_cache`, `_colleague_graph_cache`). -/
structure GraphServiceState where
  full_graph_cache : Option FullGraph
  colleague_graph_cache : Option ColleagueGraph
  deriving DecidableEq, Repr

/-- Python truthiness of `self._colleague_graph_cache` (`None` is falsy;
a `networkx` graph is falsy when it has no nodes). -/
def colleagueCacheTruthy : Option ColleagueGraph → Bool
  | none => false
  | some g => g.nodes ≠ []

/-- Python truthiness of `self._full_graph_cache`. -/
def fullCacheTruthy : Option FullGraph → Bool
  | none => false
  | some g => g.personNodes ++ g.orgNodes ≠ []

/-- `GraphService._build_colleague_graph` with its cache: serve a truthy
cache, else build from the store and publish. -/
def build_colleague_graph (store : Store) (st : GraphServiceState) :
    ColleagueGraph × GraphServiceState :=
  match st.colleague_graph_cache with
  | some g =>
    if g.nodes ≠ [] then (g, st)
    else
      let g' := mkColleagueGraph (get_all_employment_data store)
      (g', { st with colleague_graph_cache := some g' })
  | none =>
    let g' := mkColleagueGraph (get_all_employment_data store)
    (g', { st with colleague_graph_cache := some g' })

/-- The process state the write paths touch: the store, the derived
colleague-pairs materialized view's freshness, and the graph caches. -/
structure SystemState where
  store : Store
  colleaguePairsViewFresh : Bool
  graphState : GraphServiceState
  deriving Repr

/-- `EmploymentService.bulk_insert_records`: groups, disambiguates and
upserts through the people/org/employment repositories — an effect on the
store, abstracted as the parameter `ingest` — and then refreshes the
materialized views (`schema_manager.refresh_materialized_views()`).
`EmploymentService` holds no reference to `GraphService` (its members are
the repositories, the org service and the schema manager), and no code in
the repository assigns to the cache fields outside the two build methods,
so the graph caches are carried over unchanged. -/
def bulk_insert_records (ingest : Store → List RawRecord → Store)
    (s : SystemState) (records : List RawRecord) : SystemState :=
  { s with
    store := ingest s.store records
    colleaguePairsViewFresh := true }

/-- `OrganisationService.preseed_organizations` / parent-link updates:
a store write through the organisations repository; `OrganisationService`
too holds no reference to `GraphService`, so the caches are carried over
unchanged. -/
def preseed_organizations (write : Store → List OrgTableRow → Store)
    (s : SystemState) (rows : List OrgTableRow) : SystemState :=
  { s with store := write s.store rows }

/-! ### Concrete instances used by witnesses and counterexamples -/

/-- An organisations repository with two ministries: urls "uA"/"uB"
resolve to the top-level org "M1", and "uC" to "M2". -/
def repoCex : OrgsRepo :=
  { find_by_url := fun u =>
      if u = "uA" ∨ u = "uB" then some ⟨1, "M1"⟩
      else if u = "uC" then some ⟨2, "M2"⟩ else none
    get_all_ancestors := fun _ => [] }

/-- Record A: intern at ministry M1, days 0..200. -/
def recA : RawRecord := ⟨"intern", 0, 200, some "uA"⟩

/-- Record B: intern at ministry M1, days 300..400. -/
def recB : RawRecord := ⟨"intern", 300, 400, some "uB"⟩

/-- Record C: advisor (permissible overlap) at ministry M2, days
300..500 — soft overlap with B, sequential after A. -/
def recC : RawRecord := ⟨"advisor", 300, 500, some "uC"⟩

/-- Two people with overlapping employment at org 10. -/
def dataC2 : List EmpDataRow :=
  [⟨1, "P1", 10, "U", "officer", 0, 100⟩,
   ⟨2, "P2", 10, "U", "officer", 50, 150⟩]

/-- A one-row store: person 1 at org 10, days 0..10. -/
def stC8 : Store :=
  ⟨[⟨1, "P1", none, none⟩], [⟨10, "U", none⟩],
   [⟨100, 1, 10, "officer", 0, 10⟩]⟩

/-- A stale colleague-graph cache entry, distinct from anything the
current store would build. -/
def colGraphC6 : ColleagueGraph := ⟨[(99, "STALE")], []⟩

/-- A stale full-graph cache entry. -/
def fullGraphC6 : FullGraph := ⟨[(99, "STALE")], [], [], []⟩

/-- A system state whose graph caches are populated (and truthy). -/
def sysC6 : SystemState :=
  ⟨stC8, false, ⟨some fullGraphC6, some colGraphC6⟩⟩

/-! ### C1 safety: lemma chain -/

theorem overlap_symm (a b : Enriched) :
    has_temporal_overlap a b = has_temporal_overlap b a := by
  unfold has_temporal_overlap
  by_cases h1 : a.start_date ≤ b.end_date <;>
    by_cases h2 : b.start_date ≤ a.end_date <;>
      simp [h1, h2, ge_iff_le]

theorem hard_conflict_symm (a b : Enriched) :
    is_hard_conflict a b = is_hard_conflict b a := by
  unfold is_hard_conflict
  rw [overlap_symm]
  by_cases h : has_temporal_overlap b a <;> simp [h, Bool.and_comm]

theorem compatible_mem {r : Enriched} {c : List Enriched}
    (h : compatible r c = true) : ∀ a ∈ c, is_hard_conflict r a = false := by
  intro a ha
  have := List.all_eq_true.mp h a ha
  simpa using this

theorem selectGo_good (r : Enriched) (L : Nat → Option (List Enriched)) :
    ∀ (cs : List (List Enriched)) (i : Nat) (bm : Int × Int),
      (bm.1 = -1 ∨ ∀ c, L bm.1.toNat = some c → compatible r c = true) →
      (∀ k c, cs.get? k = some c → L (i + k) = some c) →
      ((selectGo r i bm cs).1 = -1 ∨
        ∀ c, L (selectGo r i bm cs).1.toNat = some c →
          compatible r c = true) := by
  intro cs
  induction cs with
  | nil => intro i bm hbm _; exact hbm
  | cons c cs ih =>
    intro i bm hbm hcs
    have hLi : L i = some c := by
      have := hcs 0 c rfl
      simpa using this
    have hupd : ∀ s : Int, compatible r c = true →
        (((i : Int), s).1 = -1 ∨
          ∀ c', L ((i : Int), s).1.toNat = some c' → compatible r c' = true) := by
      intro s hcomp
      right
      intro c' hc'
      simp only [Int.toNat_natCast] at hc'
      rw [hLi] at hc'
      cases hc'
      exact hcomp
    show (selectGo r (i + 1) _ cs).1 = -1 ∨ _
    apply ih (i + 1)
    · by_cases hcomp : compatible r c = true
      · simp only [hcomp, if_true]
        by_cases h1 : cohesionSum r c > bm.2 <;>
          simp only [h1, if_true, if_false] <;>
          split <;>
          first
            | exact hupd _ hcomp
            | exact hbm
      · simp only [Bool.not_eq_true] at hcomp
        simp only [hcomp, Bool.false_eq_true, if_false]
        exact hbm
    · intro k c' hk
      have := hcs (k + 1) c' hk
      have harith : i + (k + 1) = i + 1 + k := by omega
      rwa [harith] at this

theorem mem_appendAt {r : Enriched} :
    ∀ (n : Nat) (clusters : List (List Enriched)) (c : List Enriched),
      c ∈ appendAt n r clusters →
      c ∈ clusters ∨
        ∃ c₀, clusters.get? n = some c₀ ∧ c = c₀ ++ [r] := by
  intro n
  induction n with
  | zero =>
    intro clusters c hc
    cases clusters with
    | nil => cases hc
    | cons c₀ cs =>
      simp only [appendAt] at hc
      rcases List.mem_cons.mp hc with h | h
      · exact Or.inr ⟨c₀, rfl, h⟩
      · exact Or.inl (List.mem_cons_of_mem _ h)
  | succ n ih =>
    intro clusters c hc
    cases clusters with
    | nil => cases hc
    | cons c₀ cs =>
      simp only [appendAt] at hc
      rcases List.mem_cons.mp hc with h | h
      · exact Or.inl (h ▸ List.mem_cons_self _ _)
      · rcases ih cs c h with h' | ⟨cb, hget, heq⟩
        · exact Or.inl (List.mem_cons_of_mem _ h')
        · exact Or.inr ⟨cb, hget, heq⟩

theorem goodCluster_append {r : Enriched} {c : List Enriched}
    (hg : GoodCluster c) (hW : datesMatch r)
    (hcomp : compatible r c = true) : GoodCluster (c ++ [r]) := by
  constructor
  · intro e he
    rcases List.mem_append.mp he with h | h
    · exact hg.1 e h
    · rcases List.mem_singleton.mp h with rfl
      exact hW
  · rw [List.pairwise_append]
    refine ⟨hg.2, List.pairwise_singleton _ _, ?_⟩
    intro a ha b hb
    rcases List.mem_singleton.mp hb with rfl
    rw [hard_conflict_symm]
    exact compatible_mem hcomp a ha

theorem clusterStep_good {r : Enriched} {clusters : List (List Enriched)}
    (hW : datesMatch r) (h : ∀ c ∈ clusters, GoodCluster c) :
    ∀ c ∈ clusterStep clusters r, GoodCluster c := by
  intro c hc
  simp only [clusterStep] at hc
  split at hc
  · next hcond =>
    have hsel := selectGo_good r clusters.get? clusters 0 (-1, -999)
      (Or.inl rfl) (by intro k c' hk; simpa using hk)
    have hsel' : ∀ c', clusters.get? (selectBest r clusters).1.toNat = some c' →
        compatible r c' = true := by
      rcases hsel with hmin | hgood
      · exact absurd hmin hcond.1
      · exact hgood
    rcases mem_appendAt _ clusters c hc with h' | ⟨c₀, hget, rfl⟩
    · exact h c h'
    · exact goodCluster_append (h c₀ (List.get?_mem hget)) hW (hsel' c₀ hget)
  · rcases List.mem_append.mp hc with h' | h'
    · exact h c h'
    · rcases List.mem_singleton.mp h' with rfl
      exact ⟨by intro e he; rcases List.mem_singleton.mp he with rfl; exact hW,
        List.pairwise_singleton _ _⟩

theorem foldl_clusterStep_good :
    ∀ (recs : List Enriched) (clusters : List (List Enriched)),
      (∀ e ∈ recs, datesMatch e) →
      (∀ c ∈ clusters, GoodCluster c) →
      ∀ c ∈ recs.foldl clusterStep clusters, GoodCluster c := by
  intro recs
  induction recs with
  | nil => intro clusters _ h; exact h
  | cons r rs ih =>
    intro clusters hW h
    exact ih (clusterStep clusters r)
      (fun e he => hW e (List.mem_cons_of_mem _ he))
      (clusterStep_good (hW r (List.mem_cons_self _ _)) h)

theorem mem_insertByStart {a r : Enriched} :
    ∀ l : List Enriched, a ∈ insertByStart r l → a = r ∨ a ∈ l := by
  intro l
  induction l with
  | nil => intro h; simpa [insertByStart] using h
  | cons x xs ih =>
    intro h
    simp only [insertByStart] at h
    split at h
    · rcases List.mem_cons.mp h with h' | h'
      · exact Or.inr (h' ▸ List.mem_cons_self _ _)
      · rcases ih h' with h'' | h''
        · exact Or.inl h''
        · exact Or.inr (List.mem_cons_of_mem _ h'')
    · rcases List.mem_cons.mp h with h' | h'
      · exact Or.inl h'
      · exact Or.inr h'

theorem mem_sortByStart {a : Enriched} :
    ∀ (l acc : List Enriched),
      a ∈ l.foldl (fun acc r => insertByStart r acc) acc →
      a ∈ acc ∨ a ∈ l := by
  intro l
  induction l with
  | nil => intro acc h; exact Or.inl h
  | cons x xs ih =>
    intro acc h
    rcases ih (insertByStart x acc) h with h' | h'
    · rcases mem_insertByStart acc h' with h'' | h''
      · exact Or.inr (h'' ▸ List.mem_cons_self _ _)
      · exact Or.inl h''
    · exact Or.inr (List.mem_cons_of_mem _ h')

theorem enrich_datesMatch (repo : OrgsRepo) (raw : RawRecord) :
    datesMatch (enrich_record repo raw) := ⟨rfl, rfl⟩

theorem hard_conflict_transfer {a b : Enriched}
    (ha : datesMatch a) (hb : datesMatch b) :
    raw_hard_conflict a.original_record b.original_record =
      is_hard_conflict a b := by
  unfold raw_hard_conflict is_hard_conflict has_temporal_overlap
  rw [← ha.1, ← ha.2, ← hb.1, ← hb.2]
  by_cases h : (a.start_date ≤ b.end_date && a.end_date ≥ b.start_date) = true
  · simp [h]
  · simp only [Bool.not_eq_true] at h
    simp [h]

/-- C1: for every organisations repository and every list of employment
records sharing one cleaned name, every cluster
`cluster_employment_records` returns contains no hard-conflicting pair:
no two records of the same cluster overlap (inclusive intervals) while
neither title is permissible-overlap. -/
theorem c1_cluster_no_hard_conflict (repo : OrgsRepo)
    (records : List RawRecord) :
    ∀ cluster ∈ cluster_employment_records repo records,
      cluster.Pairwise (fun a b => raw_hard_conflict a b = false) := by
  intro cluster hcl
  simp only [cluster_employment_records, List.mem_map] at hcl
  obtain ⟨ec, hec, rfl⟩ := hcl
  have hGood :
      ∀ c ∈ (sortByStart (records.map (enrich_record repo))).foldl
          clusterStep [], GoodCluster c := by
    apply foldl_clusterStep_good
    · intro e he
      have hmem : e ∈ records.map (enrich_record repo) := by
        rcases mem_sortByStart _ [] he with h0 | h0
        · cases h0
        · exact h0
      rcases List.mem_map.mp hmem with ⟨raw, _, rfl⟩
      exact enrich_datesMatch repo raw
    · intro c hc
      cases hc
  have hg := hGood ec hec
  rw [List.pairwise_map]
  refine hg.2.imp_of_mem ?_
  intro a b ha hb hab
  rw [hard_conflict_transfer (hg.1 a ha) (hg.1 b hb)]
  exact hab

/-- Concrete instantiation of `c1_cluster_no_hard_conflict`: on the
three-record scenario the first returned cluster is hard-conflict free. -/
theorem c1_cluster_no_hard_conflict_witness :
    [recA, recB, recC].Pairwise (fun a b => raw_hard_conflict a b = false) :=
  c1_cluster_no_hard_conflict repoCex [recA, recB, recC]
    [recA, recB, recC] (by decide)

/-! ### C3: monotonicity of the resolver thresholds -/

theorem countP_imp_le {α : Type} (p q : α → Bool)
    (h : ∀ a, p a = true → q a = true) :
    ∀ l : List α, l.countP p ≤ l.countP q := by
  intro l
  induction l with
  | nil => simp
  | cons x xs ih =>
    rw [List.countP_cons, List.countP_cons]
    by_cases hx : p x = true
    · rw [hx, h x hx]
      simp only [if_true]
      omega
    · simp only [Bool.not_eq_true] at hx
      rw [hx]
      simp only [Bool.false_eq_true, if_false]
      split <;> omega

theorem mem_insertDescBy {α : Type} (k : α → Int × Int) (x a : α) :
    ∀ l : List α, a ∈ insertDescBy k x l ↔ a = x ∨ a ∈ l := by
  intro l
  induction l with
  | nil => simp [insertDescBy]
  | cons y ys ih =>
    simp only [insertDescBy]
    split
    · rw [List.mem_cons, ih, List.mem_cons]
      tauto
    · rw [List.mem_cons, List.mem_cons]

theorem mem_sortDescBy_aux {α : Type} (k : α → Int × Int) (a : α) :
    ∀ (l acc : List α),
      a ∈ l.foldl (fun acc x => insertDescBy k x acc) acc ↔
        a ∈ acc ∨ a ∈ l := by
  intro l
  induction l with
  | nil => simp
  | cons x xs ih =>
    intro acc
    rw [List.foldl_cons, ih, mem_insertDescBy, List.mem_cons]
    tauto

theorem mem_sortDescBy {α : Type} (k : α → Int × Int) (a : α)
    (l : List α) : a ∈ sortDescBy k l ↔ a ∈ l := by
  rw [sortDescBy, mem_sortDescBy_aux]
  simp

theorem stageBFilter_mono (tsr : String → String → Int) (q : String)
    {β1 β2 : Int} (h : β1 ≤ β2) (cands : List String) :
    ∀ p ∈ stageBFilter tsr q β2 cands, p ∈ stageBFilter tsr q β1 cands := by
  intro p hp
  simp only [stageBFilter, List.mem_filterMap] at hp ⊢
  obtain ⟨c, hc, hf⟩ := hp
  refine ⟨c, hc, ?_⟩
  split at hf
  · next hge =>
    cases hf
    rw [if_pos (le_trans h hge)]
  · cases hf

theorem strongLinkCount_mono (tsr : String → String → Int)
    {γ1 γ2 : Int} (h : γ1 ≤ γ2) (primary : List (String × Int))
    (i : Nat) (ni : String) :
    strongLinkCount tsr γ2 primary i ni ≤
      strongLinkCount tsr γ1 primary i ni := by
  unfold strongLinkCount
  apply countP_imp_le
  intro jc hjc
  simp only [Bool.and_eq_true, decide_eq_true_eq] at hjc ⊢
  exact ⟨hjc.1, le_trans h hjc.2⟩

theorem finalNamesPreLimit_mono_gamma (tsr : String → String → Int)
    (q : String) (cands : List String) (β : Int) (enable : Bool)
    {γ1 γ2 : Int} (h : γ1 ≤ γ2) (L : Nat) :
    ∀ n ∈ finalNamesPreLimit tsr q cands β enable γ2 L,
      n ∈ finalNamesPreLimit tsr q cands β enable γ1 L := by
  intro n hn
  unfold finalNamesPreLimit at hn ⊢
  by_cases h1 : ¬ enable = true ∨ (primarySorted tsr q β cands).length ≤ 1
  · rw [if_pos h1] at hn ⊢
    exact hn
  · rw [if_neg h1] at hn ⊢
    by_cases h2 : (primarySorted tsr q β cands).length ≤ L
    · rw [if_pos h2] at hn ⊢
      exact hn
    · rw [if_neg h2] at hn ⊢
      split at hn
      · cases hn
      · next hne =>
        rcases List.mem_map.mp hn with ⟨t, ht, rfl⟩
        rw [mem_sortDescBy] at ht
        simp only [pairwiseFilter, List.mem_filterMap] at ht
        obtain ⟨ic, hic, hf⟩ := ht
        split at hf
        · next hL =>
          cases hf
          have hL1 : L ≤ strongLinkCount tsr γ1
              (primarySorted tsr q β cands) ic.1 ic.2.1 :=
            le_trans hL (strongLinkCount_mono tsr h _ ic.1 ic.2.1)
          have hmem1 : (ic.2.1, ic.2.2,
              strongLinkCount tsr γ1 (primarySorted tsr q β cands)
                ic.1 ic.2.1) ∈
              pairwiseFilter tsr γ1 L (primarySorted tsr q β cands) := by
            simp only [pairwiseFilter, List.mem_filterMap]
            exact ⟨ic, hic, by rw [if_pos hL1]⟩
          rw [if_neg (List.ne_nil_of_mem hmem1)]
          exact List.mem_map.mpr ⟨_, (mem_sortDescBy _ _ _).mpr hmem1, rfl⟩
        · cases hf

/-- C3 counterexample: with store candidates {"ab", "cd", "ef"} for the
query "ab" (Stage-B threshold 0, pairwise threshold 80, limit 10), raising
the minimum strong-link count L from 1 to 3 makes the B-survivor count
(3) fall under the skip condition "B-survivors ≤ L", so the pairwise
filter that had dropped every candidate is skipped and the resolver
returns all three names — the raised setting returns "cd", which the
lower setting did not. -/
theorem c3_raising_links_grows_result :
    "cd" ∈ get_similar_person_names tsrCex "ab" ["ab", "cd", "ef"] 0 10
        true 80 3 ∧
    "cd" ∉ get_similar_person_names tsrCex "ab" ["ab", "cd", "ef"] 0 10
        true 80 1 := by
  decide

/-- C3 amended: the per-stage filters are monotone — raising the Stage-B
threshold β can only shrink the set of Stage-B survivors, and raising the
pairwise threshold γ can only shrink the set of names surviving all
filters before the final `limit_results` truncation; but the end-to-end
returned set is not monotone in β, γ, or L, because raising a parameter
can trigger the pairwise-skip conditions (see the counterexample). -/
theorem c3_stage_monotonicity (tsr : String → String → Int)
    (name_query : String) (pg_candidates : List String)
    (β1 β2 γ1 γ2 β : Int) (enable : Bool) (L : Nat)
    (hβ : β1 ≤ β2) (hγ : γ1 ≤ γ2) :
    (∀ p ∈ stageBFilter tsr name_query β2 pg_candidates,
        p ∈ stageBFilter tsr name_query β1 pg_candidates) ∧
    (∀ n ∈ finalNamesPreLimit tsr name_query pg_candidates β enable γ2 L,
        n ∈ finalNamesPreLimit tsr name_query pg_candidates β enable γ1 L) :=
  ⟨stageBFilter_mono tsr name_query hβ pg_candidates,
   finalNamesPreLimit_mono_gamma tsr name_query pg_candidates β enable hγ L⟩

/-- Concrete instantiation of `c3_stage_monotonicity` at thresholds
10 ≤ 20 and 50 ≤ 80 on the three-candidate store. -/
theorem c3_stage_monotonicity_witness :
    (10 : Int) ≤ 20 ∧ (50 : Int) ≤ 80 ∧
    (∀ n ∈ finalNamesPreLimit tsrCex "ab" ["ab", "cd", "ef"] 0 true 80 1,
        n ∈ finalNamesPreLimit tsrCex "ab" ["ab", "cd", "ef"] 0 true 50 1) :=
  ⟨by decide, by decide,
   (c3_stage_monotonicity tsrCex "ab" ["ab", "cd", "ef"] 10 20 50 80 0
      true 1 (by decide) (by decide)).2⟩

/-! ### C8: network snapshot round-trip -/

theorem find?_isSome_of_exists {α : Type} (p : α → Bool) :
    ∀ l : List α, (∃ a ∈ l, p a = true) → (l.find? p).isSome = true := by
  intro l
  induction l with
  | nil => rintro ⟨a, ha, _⟩; cases ha
  | cons x xs ih =>
    rintro ⟨a, ha, hp⟩
    by_cases hx : p x = true
    · rw [List.find?_cons_of_pos _ hx]
      rfl
    · rw [List.find?_cons_of_neg _ hx]
      rcases List.mem_cons.mp ha with rfl | ha'
      · exact absurd hp hx
      · exact ih ⟨a, ha', hp⟩

theorem length_filterMap_of_isSome {α β : Type} (f : α → Option β) :
    ∀ l : List α, (∀ a ∈ l, (f a).isSome = true) →
      (l.filterMap f).length = l.length := by
  intro l
  induction l with
  | nil => intro _; rfl
  | cons x xs ih =>
    intro h
    rw [List.filterMap_cons]
    cases hfx : f x with
    | none =>
      have := h x (List.mem_cons_self _ _)
      rw [hfx] at this
      cases this
    | some b =>
      simp only [List.length_cons,
        ih (fun a ha => h a (List.mem_cons_of_mem _ ha))]

theorem length_insertAscBy {α : Type} (le : α → α → Bool) (x : α) :
    ∀ l : List α, (insertAscBy le x l).length = l.length + 1 := by
  intro l
  induction l with
  | nil => rfl
  | cons y ys ih =>
    simp only [insertAscBy]
    split <;> simp [ih]

theorem length_sortAscBy_aux {α : Type} (le : α → α → Bool) :
    ∀ (l acc : List α),
      (l.foldl (fun acc x => insertAscBy le x acc) acc).length =
        acc.length + l.length := by
  intro l
  induction l with
  | nil => simp
  | cons x xs ih =>
    intro acc
    rw [List.foldl_cons, ih, length_insertAscBy]
    simp only [List.length_cons]
    omega

theorem length_sortAscBy {α : Type} (le : α → α → Bool) (l : List α) :
    (sortAscBy le l).length = l.length := by
  rw [sortAscBy, length_sortAscBy_aux]
  simp

theorem mem_insertAscBy {α : Type} (le : α → α → Bool) (x a : α) :
    ∀ l : List α, a ∈ insertAscBy le x l ↔ a = x ∨ a ∈ l := by
  intro l
  induction l with
  | nil => simp [insertAscBy]
  | cons y ys ih =>
    simp only [insertAscBy]
    split
    · rw [List.mem_cons, ih, List.mem_cons]
      tauto
    · rw [List.mem_cons, List.mem_cons]

theorem mem_sortAscBy_aux {α : Type} (le : α → α → Bool) (a : α) :
    ∀ (l acc : List α),
      a ∈ l.foldl (fun acc x => insertAscBy le x acc) acc ↔
        a ∈ acc ∨ a ∈ l := by
  intro l
  induction l with
  | nil => simp
  | cons x xs ih =>
    intro acc
    rw [List.foldl_cons, ih, mem_insertAscBy, List.mem_cons]
    tauto

theorem mem_sortAscBy {α : Type} (le : α → α → Bool) (a : α)
    (l : List α) : a ∈ sortAscBy le l ↔ a ∈ l := by
  rw [sortAscBy, mem_sortAscBy_aux]
  simp

theorem joinRow_isSome {st : Store} {e : EmploymentRow}
    (hp : ∃ p ∈ st.people, p.id = e.person_id)
    (ho : ∃ o ∈ st.organizations, o.id = e.org_id) :
    (joinRow st e).isSome = true := by
  unfold joinRow
  have hps : (st.people.find? (fun p => p.id = e.person_id)).isSome = true := by
    apply find?_isSome_of_exists
    obtain ⟨p, hmem, hid⟩ := hp
    exact ⟨p, hmem, by simp [hid]⟩
  have hos : (st.organizations.find? (fun o => o.id = e.org_id)).isSome = true := by
    apply find?_isSome_of_exists
    obtain ⟨o, hmem, hid⟩ := ho
    exact ⟨o, hmem, by simp [hid]⟩
  cases hpv : st.people.find? (fun p => p.id = e.person_id) with
  | none => rw [hpv] at hps; cases hps
  | some p =>
    cases hov : st.organizations.find? (fun o => o.id = e.org_id) with
    | none => rw [hov] at hos; cases hos
    | some o => rfl

/-- C8: for every store satisfying the data model's referential
integrity and every date `d`, `get_network_snapshot d` returns exactly the
employment rows whose interval contains `d` — every returned row carries
an employment row's ids, rank and interval with the interval covering `d`,
and the cardinalities agree. -/
theorem c8_network_snapshot_roundtrip (st : Store) (d : Int)
    (hfkP : ∀ e ∈ st.employment, ∃ p ∈ st.people, p.id = e.person_id)
    (hfkO : ∀ e ∈ st.employment, ∃ o ∈ st.organizations, o.id = e.org_id) :
    (get_network_snapshot st d).length =
      (st.employment.filter
        (fun e => e.start_date ≤ d ∧ d ≤ e.end_date)).length ∧
    ∀ r ∈ get_network_snapshot st d, ∃ e ∈ st.employment,
      (e.start_date ≤ d ∧ d ≤ e.end_date) ∧
      r.person_id = e.person_id ∧ r.org_id = e.org_id ∧ r.rank = e.rank ∧
      r.start_date = e.start_date ∧ r.end_date = e.end_date := by
  constructor
  · rw [get_network_snapshot, length_sortAscBy]
    apply length_filterMap_of_isSome
    intro e he
    have he' := (List.mem_filter.mp he).1
    exact joinRow_isSome (hfkP e he') (hfkO e he')
  · intro r hr
    rw [get_network_snapshot, mem_sortAscBy] at hr
    rcases List.mem_filterMap.mp hr with ⟨e, he, hj⟩
    have hmemf := List.mem_filter.mp he
    refine ⟨e, hmemf.1, by simpa using hmemf.2, ?_⟩
    unfold joinRow at hj
    cases hpv : st.people.find? (fun p => p.id = e.person_id) with
    | none => rw [hpv] at hj; cases hj
    | some p =>
      cases hov : st.organizations.find? (fun o => o.id = e.org_id) with
      | none => rw [hpv, hov] at hj; cases hj
      | some o =>
        rw [hpv, hov] at hj
        cases Option.some.inj hj
        have hpid : p.id = e.person_id := by
          simpa using List.find?_some hpv
        have hoid : o.id = e.org_id := by
          simpa using List.find?_some hov
        exact ⟨hpid, hoid, rfl, rfl, rfl⟩

/-- Concrete instantiation of `c8_network_snapshot_roundtrip` at day 5 on
a one-row store. -/
theorem c8_network_snapshot_roundtrip_witness :
    (∀ e ∈ stC8.employment, ∃ p ∈ stC8.people, p.id = e.person_id) ∧
    (∀ e ∈ stC8.employment, ∃ o ∈ stC8.organizations, o.id = e.org_id) ∧
    ((get_network_snapshot stC8 5).length =
      (stC8.employment.filter
        (fun e => e.start_date ≤ 5 ∧ 5 ≤ e.end_date)).length ∧
    ∀ r ∈ get_network_snapshot stC8 5, ∃ e ∈ stC8.employment,
      (e.start_date ≤ 5 ∧ 5 ≤ e.end_date) ∧
      r.person_id = e.person_id ∧ r.org_id = e.org_id ∧ r.rank = e.rank ∧
      r.start_date = e.start_date ∧ r.end_date = e.end_date) :=
  ⟨by decide, by decide,
   c8_network_snapshot_roundtrip stC8 5 (by decide) (by decide)⟩

/-- C9: with `get_recent_employment=true` and a person that has one
employment record, `find_employment_by_person_id` raises `TypeError`
(`res.sort(...)` returns `None`; `None[0]` fails) instead of returning
the most-recent record. -/
theorem c9_recent_employment_type_error :
    find_employment_by_person_id [⟨100, 1, 10, "officer", 0, 10⟩] true =
      Except.error PyError.typeError := by
  rfl

/-- C10: for every store contents and every person name, the fuzzy
all-time colleague query raises `TypeError` — the call into
`_get_similar_person_names` supplies three positional arguments against
four required parameters — before any colleague lookup, both directly and
through the facade's no-date `find_colleagues` path; so it never returns a
result list. -/
theorem c10_fuzzy_all_colleagues_type_error
    (storeColleagues : String → List SnapshotRow) (person_name : String) :
    find_all_colleagues storeColleagues person_name true =
        Except.error PyError.typeError ∧
    facade_find_colleagues_no_date storeColleagues person_name =
        Except.error PyError.typeError :=
  ⟨rfl, rfl⟩

/-! ### C2, C6, C7: graph queries, facade dispatch, caches -/

/-- C2: on a store where persons 1 and 2 verifiably overlapped at unit 10,
the temporal shortest-path query with `ids_only=false` returns Python
`None` — Step 5's output formatting sits under `if ids_only:`, so no
return statement executes — instead of the claimed interleaved name list
`[P1, U, P2]`.  With `ids_only=true` the interleaved path is produced,
showing the `None` is not for lack of a path. -/
theorem c2_temporal_path_none_without_ids_only :
    find_shortest_temporal_path dataC2 [1] [2] false = none ∧
    find_shortest_temporal_path dataC2 [1] [2] true =
      some [.nodeRef (.person 1), .nodeRef (.org 10),
        .nodeRef (.person 2)] := by
  decide

/-- C7: for every store contents, org hierarchy and id sets, with
`is_temporal=true` the first executed path search runs on `G_colleague`,
and with `is_temporal=false` every executed search runs on `G_full` —
regardless of `include_metadata` (and `people_only`). -/
theorem c7_dispatch_follows_temporal_flag (all_data : List EmpDataRow)
    (org_hierarchy : List OrgTableRow) (p1 p2 : List Int)
    (people_only include_metadata : Bool) :
    ((facade_find_shortest_path all_data org_hierarchy p1 p2 people_only
        include_metadata true).2.head? = some SearchKind.colleague) ∧
    ((facade_find_shortest_path all_data org_hierarchy p1 p2 people_only
        include_metadata false).2.head? = some SearchKind.full) ∧
    (SearchKind.colleague ∉ (facade_find_shortest_path all_data
        org_hierarchy p1 p2 people_only include_metadata false).2) := by
  unfold facade_find_shortest_path
  refine ⟨?_, ?_, ?_⟩ <;> split <;> simp

/-- C6 counterexample: a successful bulk write (and an OrgService
preseed) leaves both graph caches exactly as they were — populated with
the pre-write graphs, not dropped — and the next colleague-graph query
serves the stale cached graph, which differs from what a rebuild from the
store would produce. -/
theorem c6_caches_survive_writes :
    (bulk_insert_records (fun s _ => s) sysC6 [recA]).graphState.colleague_graph_cache
        = some colGraphC6 ∧
    (bulk_insert_records (fun s _ => s) sysC6 [recA]).graphState.full_graph_cache
        = some fullGraphC6 ∧
    (preseed_organizations (fun s _ => s) sysC6
        [⟨7, "X", none⟩]).graphState.colleague_graph_cache = some colGraphC6 ∧
    (build_colleague_graph
        (bulk_insert_records (fun s _ => s) sysC6 [recA]).store
        (bulk_insert_records (fun s _ => s) sysC6 [recA]).graphState).1
        = colGraphC6 ∧
    mkColleagueGraph (get_all_employment_data
        (bulk_insert_records (fun s _ => s) sysC6 [recA]).store)
        ≠ colGraphC6 := by
  decide

/-- C6 amended: no write path drops the graph caches.  For every store
write (bulk insert or organisation preseed) the graph-service cache state
is carried over unchanged, and when the colleague cache is populated and
non-empty the next colleague-graph query serves the pre-write cached
graph rather than rebuilding from the store. -/
theorem c6_writes_preserve_caches (ingest : Store → List RawRecord → Store)
    (write : Store → List OrgTableRow → Store) (s : SystemState)
    (records : List RawRecord) (rows : List OrgTableRow)
    (g : ColleagueGraph) (hg : s.graphState.colleague_graph_cache = some g)
    (hne : g.nodes ≠ []) :
    (bulk_insert_records ingest s records).graphState = s.graphState ∧
    (preseed_organizations write s rows).graphState = s.graphState ∧
    (build_colleague_graph (bulk_insert_records ingest s records).store
        (bulk_insert_records ingest s records).graphState).1 = g := by
  refine ⟨rfl, rfl, ?_⟩
  show (build_colleague_graph (ingest s.store records) s.graphState).1 = g
  unfold build_colleague_graph
  rw [hg]
  simp [hne]

/-- Concrete instantiation of `c6_writes_preserve_caches` on the stale
cache state. -/
theorem c6_writes_preserve_caches_witness :
    sysC6.graphState.colleague_graph_cache = some colGraphC6 ∧
    colGraphC6.nodes ≠ [] ∧
    ((bulk_insert_records (fun s _ => s) sysC6 [recA]).graphState =
        sysC6.graphState ∧
     (preseed_organizations (fun s _ => s) sysC6 []).graphState =
        sysC6.graphState ∧
     (build_colleague_graph
        (bulk_insert_records (fun s _ => s) sysC6 [recA]).store
        (bulk_insert_records (fun s _ => s) sysC6 [recA]).graphState).1 =
        colGraphC6) :=
  ⟨rfl, by decide,
   c6_writes_preserve_caches (fun s _ => s) (fun s _ => s) sysC6 [recA] []
     colGraphC6 rfl (by decide)⟩

/-- C4: the assignment loop does not score clusters by the single cohesion
sum: on the three-record batch (A "intern" 0..200 at ministry M1,
B "intern" 300..400 at M1, C "advisor" 300..500 at M2) the source's second,
vestigial pass re-adds C's sequential cohesion against A (0 + 2 = 2 ≥ 1),
so the code assigns C to the cluster {A, B}, while the single-sum rule of
§4.2 gives C the total 0 (2 against A, -2 soft-overlap against B) and
opens a new cluster. -/
theorem c4_second_pass_changes_assignment :
    cluster_employment_records repoCex [recA, recB, recC] =
        [[recA, recB, recC]] ∧
    cluster_employment_records_spec repoCex [recA, recB, recC] =
        [[recA, recB], [recC]] := by decide

/-- C5 counterexample: `parse_rank "Senior Director"` is not 24.  The tier
scan matches "senior director" (+22) and erases the whole padded phrase,
so the "senior" modifier (+2) never fires on the remaining text. -/
theorem c5_senior_director_not_24 : parse_rank "Senior Director" ≠ 24 := by
  decide

/-- C5 amended: `parse_rank "Senior Director"` returns 22 — the management
tier alone contributes; the erased phrase leaves nothing for the modifier
scan. -/
theorem c5_senior_director_is_22 : parse_rank "Senior Director" = 22 := by
  decide

end SearchGov
